import Mathlib

/-!
Verification of the schedule-conflict and attendance logic of the
"Mais Infância" administrative dashboard.

The TypeScript source keeps all collections in client-side state and
manipulates them with plain array/object operations.  We embed the
relevant fragments shallowly:

* JS objects `Record<string, T>` become association lists
  (`List (String × T)`); object spread `{...a, ...b}` is modeled by
  `spreadOverlay` (keys of `a` in order with `b`'s values winning,
  followed by the new keys of `b` in order).
* The regex `/(\d\x7b2\x7d):(\d\x7b2\x7d)\s*-\s*(\d\x7b2\x7d):(\d\x7b2\x7d)/`
  used by `parseTime` is modeled by a leftmost-match scanner
  (`searchPattern`): the pattern is fixed-width except for the greedy
  `\s*` runs, which are followed by a non-space literal, so the scan
  is deterministic and faithful to JS regex semantics.
* JS numbers hold only integer values in the code we model (minutes
  since midnight, workload hours), so they become `Nat`.
-/

/-- `AttendanceStatus` from `types.ts`:
`'present' | 'absent' | 'justified'`. -/
inductive AttendanceStatus where
  | present
  | absent
  | justified
deriving DecidableEq, Repr

/-- A JS `Record<string, AttendanceStatus>` as an association list. -/
abbrev AttendanceMap := List (String × AttendanceStatus)

/-- `gender: 'Masculino' | 'Feminino'` from `types.ts`. -/
inductive Gender where
  | masculino
  | feminino
deriving DecidableEq, Repr

/-- `Beneficiary` from `types.ts`. -/
structure Beneficiary where
  id : String
  name : String
  registration : String
  cpf : String
  phone : String
  birthDate : String
  gender : Gender
  workshopIds : List String
  physicalFileLocation : Option String
deriving DecidableEq, Repr

/-- `Educator` from `types.ts`. -/
structure Educator where
  id : String
  name : String
  specialty : String
  workload : Nat
deriving DecidableEq, Repr

/-- `status: 'Ativo' | 'Inativo'` from `types.ts`. -/
inductive WorkshopStatus where
  | ativo
  | inativo
deriving DecidableEq, Repr

/-- `category: 'Esporte' | 'Arte e Cultura' | 'Administrativo'`. -/
inductive WorkshopCategory where
  | esporte
  | arteECultura
  | administrativo
deriving DecidableEq, Repr

/-- `Workshop` from `types.ts`. -/
structure Workshop where
  id : String
  name : String
  ageGroup : String
  days : List String
  time : String
  status : WorkshopStatus
  educatorId : String
  maxCapacity : Nat
  color : String
  category : WorkshopCategory
  physicalFileLocation : Option String
deriving DecidableEq, Repr

/-- `Frequency` from `types.ts`: one attendance record keyed by
(workshopId, date). -/
structure Frequency where
  workshopId : String
  date : String
  attendance : AttendanceMap
deriving DecidableEq, Repr

/-- `MessageStatus` from `types.ts`. -/
inductive MessageStatus where
  | agendado
  | enviando
  | enviado
  | cancelado
  | falhou
deriving DecidableEq, Repr

/-- `recipients.type: 'all' | 'workshop'` from `types.ts`. -/
inductive RecipientsType where
  | all
  | workshop
deriving DecidableEq, Repr

/-- `ScheduledMessage` from `types.ts`. -/
structure ScheduledMessage where
  id : String
  title : String
  content : String
  recipientsType : RecipientsType
  recipientsIds : List String
  scheduledAt : String
  status : MessageStatus
deriving DecidableEq, Repr

/-- The parsed `{ start, end }` object returned by `parseTime`,
in minutes since midnight. -/
structure TimeRange where
  start : Nat
  «end» : Nat
deriving DecidableEq, Repr

/-- JS `\s` character class (ECMAScript WhiteSpace ∪ LineTerminator). -/
def isJsSpace (c : Char) : Bool :=
  let n := c.toNat
  [0x09, 0x0A, 0x0B, 0x0C, 0x0D, 0x20, 0xA0, 0x1680, 0x2028, 0x2029,
    0x202F, 0x205F, 0x3000, 0xFEFF].contains n
  || (0x2000 ≤ n && n ≤ 0x200A)

/-- Greedy `\s*`: drop the leading run of JS whitespace. -/
def skipWs : List Char → List Char
  | [] => []
  | c :: cs => if isJsSpace c then skipWs cs else c :: cs

/-- `\d\x7b2\x7d` followed by `parseInt(·, 10)`: two decimal digits,
returning their value and the rest of the input. -/
def matchTwoDigits : List Char → Option (Nat × List Char)
  | a :: b :: rest =>
      if a.isDigit && b.isDigit then
        some (10 * (a.toNat - 48) + (b.toNat - 48), rest)
      else
        none
  | _ => none

/-- Consume one expected literal character. -/
def expectChar (c : Char) : List Char → Option (List Char)
  | d :: rest => if d = c then some rest else none
  | [] => none

/-- Try to match `HH:MM\s*-\s*HH:MM` exactly at the head of the input,
returning the parsed minutes.  The pattern is fixed-width except for
the `\s*` runs, each of which is followed by a non-space literal
(`-` or a digit), so greedy matching never backtracks. -/
def tryMatchAt (l : List Char) : Option TimeRange := do
  let (h1, l1) ← matchTwoDigits l
  let l2 ← expectChar ':' l1
  let (m1, l3) ← matchTwoDigits l2
  let l4 ← expectChar '-' (skipWs l3)
  let (h2, l5) ← matchTwoDigits (skipWs l4)
  let l6 ← expectChar ':' l5
  let (m2, _) ← matchTwoDigits l6
  pure { start := h1 * 60 + m1, «end» := h2 * 60 + m2 }

/-- Leftmost regex match: try the pattern at each successive start
position, returning the first success. -/
def searchPattern : List Char → Option TimeRange
  | [] => none
  | c :: cs =>
      match tryMatchAt (c :: cs) with
      | some t => some t
      | none => searchPattern cs

/-- `parseTime` from the source: run the unanchored regex over the
string; `null` (here `none`) when there is no match.  The source's
`isNaN` guard can never fire because each captured group is exactly
two digits. -/
def parseTime (timeStr : String) : Option TimeRange :=
  searchPattern timeStr.toList

/-- `w1.days.some(day => w2.days.includes(day))` from
`findConflictingWorkshops`. -/
def hasDayConflict (w1 w2 : Workshop) : Bool :=
  w1.days.any (fun day => w2.days.contains day)

/-- `(time1.start < time2.end) && (time2.start < time1.end)`. -/
def hasTimeConflict (t1 t2 : TimeRange) : Bool :=
  decide (t1.start < t2.«end») && decide (t2.start < t1.«end»)

/-- The body of the double loop of `findConflictingWorkshops` for one
pair: parse both times (`continue` on failure), check day overlap,
then time overlap. -/
def checkPair (w1 w2 : Workshop) : Bool :=
  match parseTime w1.time, parseTime w2.time with
  | some t1, some t2 => hasDayConflict w1 w2 && hasTimeConflict t1 t2
  | _, _ => false

/-- `findConflictingWorkshops` from the source: for `i` ascending and
`j` from `i+1` ascending, push `[w1, w2]` whenever the pair passes
`checkPair`.  Pairs are modeled as ordered `Workshop × Workshop`. -/
def findConflictingWorkshops (selectedWorkshops : List Workshop) :
    List (Workshop × Workshop) :=
  if selectedWorkshops.length < 2 then []
  else
    (List.range selectedWorkshops.length).flatMap (fun i =>
      ((List.range selectedWorkshops.length).drop (i + 1)).filterMap (fun j =>
        match selectedWorkshops[i]?, selectedWorkshops[j]? with
        | some w1, some w2 => if checkPair w1 w2 then some (w1, w2) else none
        | _, _ => none))

/-- The six-value weekday list offered by the workshop form
(`const weekDays = ['Segunda', 'Terça', 'Quarta', 'Quinta', 'Sexta',
'Sábado']`). -/
def weekDays : List String :=
  ["Segunda", "Terça", "Quarta", "Quinta", "Sexta", "Sábado"]

/-- A workshop whose parsed time range is degenerate: it parses but its
end minute is not after its start minute. -/
def degenerateRange (w : Workshop) : Bool :=
  match parseTime w.time with
  | some t => t.«end» ≤ t.start
  | none => false

/-- The spec's description of `findConflicts`, written independently of
the loop structure of the source: all index pairs in lexicographic
order, kept iff `i < j`, both time strings parse, the day-sets share a
member, and the parsed minutes overlap strictly. -/
def specFindConflicts (ws : List Workshop) : List (Workshop × Workshop) :=
  (((List.range ws.length).product (List.range ws.length)).filter
      (fun p => decide (p.1 < p.2))).filterMap
    (fun p =>
      match ws[p.1]?, ws[p.2]? with
      | some w1, some w2 =>
          match parseTime w1.time, parseTime w2.time with
          | some t1, some t2 =>
              if (∃ d ∈ w1.days, d ∈ w2.days) ∧
                  t1.start < t2.«end» ∧ t2.start < t1.«end» then
                some (w1, w2)
              else
                none
          | _, _ => none
      | _, _ => none)

/-- JS object spread `\x7b ...existing, ...edits \x7d`: the keys of
`existing` keep their positions (taking `edits`' value when `edits`
also binds the key), and the keys new in `edits` are appended in
order. -/
def spreadOverlay (existing edits : AttendanceMap) : AttendanceMap :=
  existing.map (fun kv =>
    match edits.lookup kv.1 with
    | some v => (kv.1, v)
    | none => kv)
  ++ edits.filter (fun kv => (existing.lookup kv.1).isNone)

/-- The merge performed by `WorkshopFrequencyModal.handleSave`:
`\x7b ...(initialFrequenciesMap[date] || \x7b\x7d), ...attendanceRecord \x7d`.
A missing baseline (`none`) behaves as the empty object. -/
def mergeAttendance (existing : Option AttendanceMap) (edits : AttendanceMap) :
    AttendanceMap :=
  spreadOverlay (existing.getD []) edits

/-- `handleSaveFrequency` from the source: find the first record with
the same (workshopId, date) key; replace it in place when found,
append a new record otherwise. -/
def handleSaveFrequency (prev : List Frequency) (workshopId date : String)
    (attendance : AttendanceMap) : List Frequency :=
  match prev.findIdx? (fun f => f.workshopId == workshopId && f.date == date) with
  | some index => prev.set index ⟨workshopId, date, attendance⟩
  | none => prev ++ [⟨workshopId, date, attendance⟩]

/-- `handleEnrollBeneficiaries` from the source: for every beneficiary
whose id is in `beneficiaryIdsToAdd`, append `workshopId` to its
`workshopIds` (`[...b.workshopIds, workshopId]`); others unchanged. -/
def handleEnrollBeneficiaries (bs : List Beneficiary) (workshopId : String)
    (beneficiaryIdsToAdd : List String) : List Beneficiary :=
  bs.map (fun b =>
    if beneficiaryIdsToAdd.contains b.id then
      { b with workshopIds := b.workshopIds ++ [workshopId] }
    else b)

/-- `handleSaveBeneficiary` from the source: reject (returning the
collection unchanged and `false`) when another stored beneficiary has
the same CPF and a different id; otherwise update by id when editing,
append when adding, returning `true`. -/
def handleSaveBeneficiary (bs : List Beneficiary)
    (beneficiaryToEdit : Option Beneficiary) (beneficiary : Beneficiary) :
    List Beneficiary × Bool :=
  match bs.find? (fun b => b.cpf == beneficiary.cpf && b.id != beneficiary.id) with
  | some _ => (bs, false)
  | none =>
      if beneficiaryToEdit.isSome then
        (bs.map (fun b => if b.id == beneficiary.id then beneficiary else b), true)
      else
        (bs ++ [beneficiary], true)

/-- The collections held in the application's client-side state. -/
structure AppState where
  beneficiaries : List Beneficiary
  educators : List Educator
  workshops : List Workshop
  frequencies : List Frequency
  scheduledMessages : List ScheduledMessage
deriving DecidableEq, Repr

/-- A parsed backup document.  `none` models a field that is absent
(or `null`/`undefined`, i.e. falsy) in the JSON; a present array is
truthy in JS even when empty. -/
structure BackupData where
  beneficiaries : Option (List Beneficiary)
  educators : Option (List Educator)
  workshops : Option (List Workshop)
  frequencies : Option (List Frequency)
  scheduledMessages : Option (List ScheduledMessage)
deriving DecidableEq, Repr

/-- `handleRestoreBackup` from the source: when all four core
collections are present, replace every collection wholesale
(`scheduledMessages` falls back to `[]`) and report success;
otherwise leave the state untouched and report failure.  The returned
`Bool` records whether the restore was applied. -/
def handleRestoreBackup (st : AppState) (backupData : BackupData) :
    AppState × Bool :=
  match backupData.beneficiaries, backupData.educators,
      backupData.workshops, backupData.frequencies with
  | some bs, some es, some wsl, some fs =>
      ({ beneficiaries := bs, educators := es, workshops := wsl,
         frequencies := fs,
         scheduledMessages := backupData.scheduledMessages.getD [] }, true)
  | _, _, _, _ => (st, false)

/-- A workshop with the given id, day set and time string; the fields
that conflict detection never reads take fixed defaults. -/
def mkWorkshop (id : String) (days : List String) (time : String) : Workshop :=
  { id := id, name := id, ageGroup := "", days := days, time := time,
    status := .ativo, educatorId := "", maxCapacity := 20,
    color := "indigo", category := .esporte, physicalFileLocation := none }

/-- A beneficiary with the given id, CPF and workshop list; the other
fields take fixed defaults. -/
def mkBeneficiary (id cpf : String) (workshopIds : List String) : Beneficiary :=
  { id := id, name := id, registration := "", cpf := cpf, phone := "",
    birthDate := "2000-01-01", gender := .masculino,
    workshopIds := workshopIds, physicalFileLocation := none }

/-- Helper: the indices of `range n` above `i` are exactly the filter
of `range n` by `i < ·`, in the same order. -/
theorem range_filter_lt_eq_drop (i n : Nat) :
    (List.range n).filter (fun j => decide (i < j)) = (List.range n).drop (i + 1) := by
  induction n with
  | zero => rfl
  | succ n ih =>
      rw [List.range_succ, List.filter_append, ih]
      by_cases h : i < n
      · rw [List.drop_append_of_le_length (by simpa using h)]
        simp [h]
      · have h1 : (List.range n).drop (i + 1) = [] :=
          List.drop_of_length_le (by simp; omega)
        have h2 : (List.range n ++ [n]).drop (i + 1) = [] :=
          List.drop_of_length_le (by simp; omega)
        simp [h1, h2, h]

/-- Helper: `checkPair` decoded into the spec's conditions, given that
both time strings parse. -/
theorem checkPair_iff (w1 w2 : Workshop) (t1 t2 : TimeRange)
    (h1 : parseTime w1.time = some t1) (h2 : parseTime w2.time = some t2) :
    checkPair w1 w2 = true ↔
      ((∃ d ∈ w1.days, d ∈ w2.days) ∧ t1.start < t2.«end» ∧ t2.start < t1.«end») := by
  simp [checkPair, h1, h2, hasDayConflict, hasTimeConflict, List.any_eq_true]

/-- Helper: a passing pair has both times parsed and strictly
overlapping. -/
theorem checkPair_elim {w1 w2 : Workshop} (h : checkPair w1 w2 = true) :
    ∃ t1 t2, parseTime w1.time = some t1 ∧ parseTime w2.time = some t2 ∧
      t1.start < t2.«end» ∧ t2.start < t1.«end» := by
  unfold checkPair at h
  cases hp1 : parseTime w1.time with
  | none => rw [hp1] at h; simp at h
  | some t1 =>
      cases hp2 : parseTime w2.time with
      | none => rw [hp1, hp2] at h; simp at h
      | some t2 =>
          rw [hp1, hp2] at h
          refine ⟨t1, t2, rfl, rfl, ?_, ?_⟩ <;>
            simp [hasTimeConflict, Bool.and_eq_true] at h <;> omega

/-- Helper: every emitted pair passes `checkPair`. -/
theorem checkPair_of_mem {ws : List Workshop} {p : Workshop × Workshop}
    (h : p ∈ findConflictingWorkshops ws) : checkPair p.1 p.2 = true := by
  unfold findConflictingWorkshops at h
  split at h
  · simp at h
  · rw [List.mem_flatMap] at h
    obtain ⟨i, -, hi⟩ := h
    rw [List.mem_filterMap] at hi
    obtain ⟨j, -, hj⟩ := hi
    cases h1 : ws[i]? with
    | none => rw [h1] at hj; simp at hj
    | some w1 =>
        cases h2 : ws[j]? with
        | none => rw [h1, h2] at hj; simp at hj
        | some w2 =>
            rw [h1, h2] at hj
            dsimp only at hj
            by_cases hc : checkPair w1 w2 = true
            · rw [if_pos hc] at hj
              obtain rfl : (w1, w2) = p := Option.some.inj hj
              exact hc
            · rw [if_neg hc] at hj; simp at hj

/-- C1: `findConflictingWorkshops` returns exactly the pairs
`(w_i, w_j)` with `i < j` in ascending pairwise scan order such that
both time strings parse, the day-sets share a member, and the parsed
minutes satisfy `start_i < end_j` and `start_j < end_i` (so two ranges
that only touch at an endpoint are never reported, the comparison
being strict). -/
theorem findConflictingWorkshops_eq_spec (ws : List Workshop) :
    findConflictingWorkshops ws = specFindConflicts ws := by
  match ws with
  | [] => rfl
  | [w] => rfl
  | wa :: wb :: rest =>
      unfold findConflictingWorkshops specFindConflicts
      rw [if_neg (by simp)]
      rw [show List.product (List.range (wa :: wb :: rest).length)
            (List.range (wa :: wb :: rest).length) =
          (List.range (wa :: wb :: rest).length).flatMap
            (fun i => (List.range (wa :: wb :: rest).length).map (Prod.mk i)) from rfl]
      rw [List.filter_flatMap, List.filterMap_flatMap]
      refine List.flatMap_congr (fun i _ => ?_)
      rw [List.filter_map, List.filterMap_map]
      rw [show ((fun p : Nat × Nat => decide (p.1 < p.2)) ∘ Prod.mk i) =
          (fun j => decide (i < j)) from rfl]
      rw [range_filter_lt_eq_drop]
      refine List.filterMap_congr (fun j _ => ?_)
      dsimp only [Function.comp]
      cases hgi : (wa :: wb :: rest)[i]? with
      | none => rfl
      | some u =>
          cases hgj : (wa :: wb :: rest)[j]? with
          | none => rfl
          | some v =>
              dsimp only
              unfold checkPair
              cases hp1 : parseTime u.time with
              | none => rfl
              | some t1 =>
                  cases hp2 : parseTime v.time with
                  | none => rfl
                  | some t2 =>
                      dsimp only
                      refine if_congr ?_ rfl rfl
                      simp [hasDayConflict, hasTimeConflict, List.any_eq_true]

/-- C4: a workshop whose time string has no `HH:MM - HH:MM` match is
never a component of any reported conflicting pair, for every input
list; the pair is silently skipped rather than surfaced as an error. -/
theorem unparseable_never_reported (ws : List Workshop) (w : Workshop)
    (h : parseTime w.time = none) :
    ∀ p ∈ findConflictingWorkshops ws, p.1 ≠ w ∧ p.2 ≠ w := by
  intro p hp
  obtain ⟨t1, t2, hp1, hp2, -, -⟩ := checkPair_elim (checkPair_of_mem hp)
  constructor
  · intro he; rw [he, h] at hp1; exact Option.noConfusion hp1
  · intro he; rw [he, h] at hp2; exact Option.noConfusion hp2

/-- Witness for C4 at `time = "manhã"`. -/
theorem unparseable_never_reported_witness :
    parseTime (mkWorkshop "m" ["Segunda"] "manhã").time = none ∧
    ∀ p ∈ findConflictingWorkshops
        [mkWorkshop "m" ["Segunda"] "manhã",
         mkWorkshop "g" ["Segunda"] "09:00 - 10:00"],
      p.1 ≠ mkWorkshop "m" ["Segunda"] "manhã" ∧
      p.2 ≠ mkWorkshop "m" ["Segunda"] "manhã" :=
  ⟨by decide, unparseable_never_reported _ _ (by decide)⟩

/-- C5 (amended): a workshop whose parsed end is not after its start is
never reported against another workshop that is degenerate in the same
sense; the strict-overlap test applies unchanged, so it can still be
reported against a well-formed range (see the counterexample). -/
theorem degenerate_pairs_not_reported (ws : List Workshop) :
    (findConflictingWorkshops ws).filter
      (fun p => degenerateRange p.1 && degenerateRange p.2) = [] := by
  rw [List.filter_eq_nil_iff]
  intro p hp
  obtain ⟨t1, t2, hp1, hp2, ho1, ho2⟩ := checkPair_elim (checkPair_of_mem hp)
  simp [degenerateRange, hp1, hp2]
  omega

/-- C5 counterexample: the pair (10:00 - 09:00, 08:00 - 12:00) on a
shared weekday is reported even though the first range has
end < start, refuting the claim that such workshops are treated as
non-conflicting. -/
theorem degenerate_reported_counterexample :
    parseTime (mkWorkshop "deg" ["Segunda"] "10:00 - 09:00").time =
      some { start := 600, «end» := 540 } ∧
    findConflictingWorkshops
        [mkWorkshop "deg" ["Segunda"] "10:00 - 09:00",
         mkWorkshop "big" ["Segunda"] "08:00 - 12:00"] =
      [(mkWorkshop "deg" ["Segunda"] "10:00 - 09:00",
        mkWorkshop "big" ["Segunda"] "08:00 - 12:00")] := by decide

/-- C6 counterexample: two workshops sharing only the day name
"Domingo", which is outside the six-value weekday vocabulary, are
reported as conflicting, refuting the claim that out-of-vocabulary day
names never match. -/
theorem day_vocabulary_counterexample :
    "Domingo" ∉ weekDays ∧
    findConflictingWorkshops
        [mkWorkshop "d1" ["Domingo"] "09:00 - 10:00",
         mkWorkshop "d2" ["Domingo"] "09:30 - 10:30"] =
      [(mkWorkshop "d1" ["Domingo"] "09:00 - 10:00",
        mkWorkshop "d2" ["Domingo"] "09:30 - 10:30")] := by decide

/-- C6 (amended): day overlap is verbatim, case-sensitive string
matching with no vocabulary restriction: any day name shared by both
workshops matches, so two workshops sharing any day-name string whose
parsed times strictly overlap are reported. -/
theorem shared_day_name_conflicts (w1 w2 : Workshop) (d : String) (t1 t2 : TimeRange)
    (hd1 : d ∈ w1.days) (hd2 : d ∈ w2.days)
    (hp1 : parseTime w1.time = some t1) (hp2 : parseTime w2.time = some t2)
    (ho1 : t1.start < t2.«end») (ho2 : t2.start < t1.«end») :
    findConflictingWorkshops [w1, w2] = [(w1, w2)] := by
  have hc : checkPair w1 w2 = true :=
    (checkPair_iff w1 w2 t1 t2 hp1 hp2).mpr ⟨⟨d, hd1, hd2⟩, ho1, ho2⟩
  unfold findConflictingWorkshops
  rw [if_neg (by simp)]
  simp [List.range_succ, hc]

/-- Witness for the amended C6 at the out-of-vocabulary day name
"Domingo". -/
theorem shared_day_name_conflicts_witness :
    "Domingo" ∈ (mkWorkshop "e1" ["Domingo"] "09:00 - 10:00").days ∧
    findConflictingWorkshops
        [mkWorkshop "e1" ["Domingo"] "09:00 - 10:00",
         mkWorkshop "e2" ["Domingo"] "09:30 - 10:30"] =
      [(mkWorkshop "e1" ["Domingo"] "09:00 - 10:00",
        mkWorkshop "e2" ["Domingo"] "09:30 - 10:30")] :=
  ⟨by decide, shared_day_name_conflicts _ _ "Domingo" ⟨540, 600⟩ ⟨570, 630⟩
    (by decide) (by decide) (by decide) (by decide) (by decide) (by decide)⟩

/-- Helper: looking a key up in the overlaid copy of the existing map. -/
theorem lookup_map_overlay (m edits : AttendanceMap) (k : String) :
    (m.map (fun kv =>
        match edits.lookup kv.1 with
        | some v => (kv.1, v)
        | none => kv)).lookup k =
      match m.lookup k with
      | none => none
      | some v =>
          match edits.lookup k with
          | some v2 => some v2
          | none => some v := by
  induction m with
  | nil => simp [List.lookup]
  | cons kv rest ih =>
      obtain ⟨k1, v1⟩ := kv
      by_cases h : k = k1
      · subst h
        cases he : edits.lookup k <;>
          simp [List.lookup_cons, he]
      · have hb : (k == k1) = false := by
          simpa using h
        cases he : edits.lookup k1 <;>
          simp [List.lookup_cons, hb, ih, he]

/-- Helper: looking a key up among the entries of `edits` whose keys
are new. -/
theorem lookup_filter_missing (m edits : AttendanceMap) (k : String) :
    (edits.filter (fun kv => (m.lookup kv.1).isNone)).lookup k =
      if (m.lookup k).isNone then edits.lookup k else none := by
  induction edits with
  | nil => simp [List.lookup]
  | cons kv rest ih =>
      obtain ⟨k1, v1⟩ := kv
      by_cases h : k = k1
      · subst h
        cases hm : (m.lookup k).isNone <;>
          simp [List.filter_cons, hm, List.lookup_cons, ih]
      · have hb : (k == k1) = false := by simpa using h
        cases hm : (m.lookup k1).isNone <;>
          simp [List.filter_cons, hm, List.lookup_cons, hb, ih]

/-- C2: merging against an absent baseline returns the edits
unchanged, and merging against an existing map is a per-key overlay:
keys bound in `edits` take the edited status, keys bound only in the
existing map keep their existing status. -/
theorem mergeAttendance_spec :
    (∀ edits : AttendanceMap, mergeAttendance none edits = edits) ∧
    (∀ (existing edits : AttendanceMap) (k : String),
      (mergeAttendance (some existing) edits).lookup k =
        match edits.lookup k with
        | some v => some v
        | none => existing.lookup k) := by
  constructor
  · intro edits
    unfold mergeAttendance spreadOverlay
    simp [List.lookup]
  · intro existing edits k
    unfold mergeAttendance spreadOverlay
    rw [Option.getD_some, List.lookup_append, lookup_map_overlay,
      lookup_filter_missing]
    cases hm : existing.lookup k <;> cases he : edits.lookup k <;> simp [hm, he]


/-- C3 (amended): provided the prior list holds at most one record for
the (workshopId, date) key, saving is an upsert: afterwards the records
matching the key are exactly the one whose attendance map equals the
argument in full, records with a different key are unchanged, and when
no record existed the new one is appended. -/
theorem handleSaveFrequency_upsert (prev : List Frequency) (wid date : String)
    (att : AttendanceMap)
    (h : prev.countP (fun f => f.workshopId == wid && f.date == date) ≤ 1) :
    (handleSaveFrequency prev wid date att).filter
        (fun f => f.workshopId == wid && f.date == date) = [⟨wid, date, att⟩] ∧
    (handleSaveFrequency prev wid date att).filter
        (fun f => !(f.workshopId == wid && f.date == date)) =
      prev.filter (fun f => !(f.workshopId == wid && f.date == date)) ∧
    (prev.countP (fun f => f.workshopId == wid && f.date == date) = 0 →
      handleSaveFrequency prev wid date att = prev ++ [⟨wid, date, att⟩]) := by
  have hkey : ((⟨wid, date, att⟩ : Frequency).workshopId == wid &&
      (⟨wid, date, att⟩ : Frequency).date == date) = true := by simp
  unfold handleSaveFrequency
  cases hidx : prev.findIdx? (fun f => f.workshopId == wid && f.date == date) with
  | none =>
      have hall : ∀ f ∈ prev, (f.workshopId == wid && f.date == date) = false :=
        fun f hf => by
          have := List.findIdx?_eq_none_iff.mp hidx f hf
          exact this
      have hnil : prev.filter (fun f => f.workshopId == wid && f.date == date) = [] :=
        List.filter_eq_nil_iff.mpr (fun f hf => by simp [hall f hf])
      dsimp only
      refine ⟨?_, ?_, fun _ => rfl⟩
      · rw [List.filter_append, hnil]
        simp [hkey]
      · rw [List.filter_append]
        have h1 : List.filter (fun f => !(f.workshopId == wid && f.date == date))
            [(⟨wid, date, att⟩ : Frequency)] = [] := by
          simp [hkey]
        rw [h1, List.append_nil]
  | some i =>
      obtain ⟨hi, hpi, hmin⟩ := List.findIdx?_eq_some_iff_getElem.mp hidx
      dsimp only
      have hsplit : prev = prev.take i ++ prev[i] :: prev.drop (i + 1) := by
        conv_lhs => rw [← List.take_append_drop i prev]
        rw [List.drop_eq_getElem_cons hi]
      have hset : prev.set i ⟨wid, date, att⟩ =
          prev.take i ++ (⟨wid, date, att⟩ : Frequency) :: prev.drop (i + 1) := by
        rw [List.set_eq_take_append_cons_drop, if_pos hi]
      have hc2 : prev.countP (fun f => f.workshopId == wid && f.date == date) =
          (prev.take i).countP (fun f => f.workshopId == wid && f.date == date) +
            ((prev.drop (i + 1)).countP
              (fun f => f.workshopId == wid && f.date == date) + 1) := by
        conv_lhs => rw [hsplit]
        rw [List.countP_append, List.countP_cons, if_pos hpi]
      have htake : (prev.take i).countP
          (fun f => f.workshopId == wid && f.date == date) = 0 := by omega
      have hdrop : (prev.drop (i + 1)).countP
          (fun f => f.workshopId == wid && f.date == date) = 0 := by omega
      have htake2 : (prev.take i).filter
          (fun f => f.workshopId == wid && f.date == date) = [] :=
        List.filter_eq_nil_iff.mpr (fun f hf => by
          simp [List.countP_eq_zero.mp htake f hf])
      have hdrop2 : (prev.drop (i + 1)).filter
          (fun f => f.workshopId == wid && f.date == date) = [] :=
        List.filter_eq_nil_iff.mpr (fun f hf => by
          simp [List.countP_eq_zero.mp hdrop f hf])
      refine ⟨?_, ?_, ?_⟩
      · rw [hset, List.filter_append, htake2, List.filter_cons]
        simp [hkey, hdrop2]
      · rw [hset]
        conv_rhs => rw [hsplit]
        rw [List.filter_append, List.filter_append, List.filter_cons, List.filter_cons]
        simp [hkey, hpi]
      · intro h0
        omega

/-- C3 counterexample: when the prior list already holds two records
for the key — reachable, since `handleRestoreBackup` installs arbitrary
lists — a save replaces only the first one, leaving two records for the
key, refuting the claim for every prior list. -/
theorem handleSaveFrequency_dup_counterexample :
    (handleSaveFrequency
        [⟨"w1", "2025-01-01", [("b1", AttendanceStatus.present)]⟩,
         ⟨"w1", "2025-01-01", [("b1", AttendanceStatus.absent)]⟩]
        "w1" "2025-01-01" [("b1", AttendanceStatus.justified)]).countP
      (fun f => f.workshopId == "w1" && f.date == "2025-01-01") = 2 := by decide

/-- Witness for the amended C3 on a one-record list. -/
theorem handleSaveFrequency_upsert_witness :
    (([⟨"w1", "2025-01-01", [("b1", AttendanceStatus.present)]⟩] : List Frequency).countP
        (fun f => f.workshopId == "w1" && f.date == "2025-01-01") ≤ 1) ∧
    ((handleSaveFrequency [⟨"w1", "2025-01-01", [("b1", AttendanceStatus.present)]⟩]
        "w1" "2025-01-01" [("b1", AttendanceStatus.justified)]).filter
      (fun f => f.workshopId == "w1" && f.date == "2025-01-01") =
        [⟨"w1", "2025-01-01", [("b1", AttendanceStatus.justified)]⟩]) :=
  ⟨by decide, (handleSaveFrequency_upsert _ _ _ _ (by decide)).1⟩

/-- C7 counterexample: enrolling a beneficiary into a workshop it
already belongs to appends the id again, producing a duplicate in
`workshopIds`, refuting de-duplication on write. -/
theorem handleEnrollBeneficiaries_dup_counterexample :
    (∀ b ∈ [mkBeneficiary "b1" "111" ["w1"]], b.workshopIds.Nodup) ∧
    ¬ (∀ b ∈ handleEnrollBeneficiaries [mkBeneficiary "b1" "111" ["w1"]] "w1" ["b1"],
        b.workshopIds.Nodup) := by decide

/-- C7 (amended): enrollment appends the workshop id with no
de-duplication; duplicate-freedom is preserved only when no targeted
beneficiary already holds the workshop id — the precondition the
enrollment modal establishes by offering only un-enrolled
beneficiaries. -/
theorem handleEnrollBeneficiaries_nodup (bs : List Beneficiary) (wid : String)
    (ids : List String)
    (h1 : ∀ b ∈ bs, b.workshopIds.Nodup)
    (h2 : ∀ b ∈ bs, b.id ∈ ids → wid ∉ b.workshopIds) :
    ∀ b ∈ handleEnrollBeneficiaries bs wid ids, b.workshopIds.Nodup := by
  intro b hb
  unfold handleEnrollBeneficiaries at hb
  rw [List.mem_map] at hb
  obtain ⟨a, ha, rfl⟩ := hb
  by_cases hin : ids.contains a.id = true
  · rw [if_pos hin]
    have hmem : a.id ∈ ids := by simpa using hin
    rw [List.nodup_append]
    exact ⟨h1 a ha, List.nodup_singleton _,
      List.disjoint_singleton.mpr (h2 a ha hmem)⟩
  · rw [if_neg hin]
    exact h1 a ha

/-- Witness for the amended C7. -/
theorem handleEnrollBeneficiaries_nodup_witness :
    (∀ b ∈ [mkBeneficiary "b1" "111" ["w1"]], b.workshopIds.Nodup) ∧
    (∀ b ∈ [mkBeneficiary "b1" "111" ["w1"]], b.id ∈ ["b1"] → "w2" ∉ b.workshopIds) ∧
    (∀ b ∈ handleEnrollBeneficiaries [mkBeneficiary "b1" "111" ["w1"]] "w2" ["b1"],
        b.workshopIds.Nodup) :=
  ⟨by decide, by decide,
    handleEnrollBeneficiaries_nodup _ _ _ (by decide) (by decide)⟩

/-- C8: restore is atomic on structural validation: with any of the
four core collections absent the state is returned untouched with
failure; with all four present every collection is replaced wholesale
by the backup's contents. -/
theorem handleRestoreBackup_atomic (st : AppState) (bd : BackupData) :
    ((bd.beneficiaries = none ∨ bd.educators = none ∨ bd.workshops = none ∨
        bd.frequencies = none) →
      handleRestoreBackup st bd = (st, false)) ∧
    (∀ bs es wsl fs, bd.beneficiaries = some bs → bd.educators = some es →
      bd.workshops = some wsl → bd.frequencies = some fs →
      handleRestoreBackup st bd =
        ({ beneficiaries := bs, educators := es, workshops := wsl,
           frequencies := fs,
           scheduledMessages := bd.scheduledMessages.getD [] }, true)) := by
  constructor
  · intro h
    unfold handleRestoreBackup
    cases hb : bd.beneficiaries <;> cases hed : bd.educators <;>
      cases hw : bd.workshops <;> cases hf : bd.frequencies <;>
      first
        | rfl
        | (exfalso; rcases h with h | h | h | h <;> simp_all)
  · intro bs es wsl fs h1 h2 h3 h4
    unfold handleRestoreBackup
    rw [h1, h2, h3, h4]

/-- Witness for C8: a backup missing `frequencies` changes nothing; a
complete backup replaces the collections. -/
theorem handleRestoreBackup_atomic_witness :
    handleRestoreBackup
        ⟨[mkBeneficiary "b0" "000" []], [], [], [], []⟩
        ⟨some [], some [], some [], none, none⟩ =
      (⟨[mkBeneficiary "b0" "000" []], [], [], [], []⟩, false) ∧
    handleRestoreBackup
        ⟨[mkBeneficiary "b0" "000" []], [], [], [], []⟩
        ⟨some [mkBeneficiary "b1" "111" []], some [], some [], some [], none⟩ =
      (⟨[mkBeneficiary "b1" "111" []], [], [], [], []⟩, true) :=
  ⟨(handleRestoreBackup_atomic _ _).1 (by simp),
   (handleRestoreBackup_atomic _ _).2 _ _ _ _ rfl rfl rfl rfl⟩

/-- C9: saving a beneficiary whose CPF duplicates a different stored
beneficiary's returns `false` with the collection exactly unchanged;
with no such duplicate the save returns `true` and performs the update
(by id) or the append. -/
theorem handleSaveBeneficiary_spec (bs : List Beneficiary) (ed : Option Beneficiary)
    (nb : Beneficiary) :
    ((∃ b ∈ bs, b.cpf = nb.cpf ∧ b.id ≠ nb.id) →
      handleSaveBeneficiary bs ed nb = (bs, false)) ∧
    ((∀ b ∈ bs, b.cpf = nb.cpf → b.id = nb.id) →
      handleSaveBeneficiary bs ed nb =
        (if ed.isSome then bs.map (fun b => if b.id == nb.id then nb else b)
         else bs ++ [nb], true)) := by
  constructor
  · rintro ⟨b, hb, hcpf, hid⟩
    unfold handleSaveBeneficiary
    cases hf : bs.find? (fun x => x.cpf == nb.cpf && x.id != nb.id) with
    | none =>
        exfalso
        have := List.find?_eq_none.mp hf b hb
        simp [hcpf, hid] at this
    | some x => rfl
  · intro hall
    unfold handleSaveBeneficiary
    have hf : bs.find? (fun x => x.cpf == nb.cpf && x.id != nb.id) = none :=
      List.find?_eq_none.mpr (fun x hx hpx => by
        rw [Bool.and_eq_true, beq_iff_eq, bne_iff_ne] at hpx
        exact hpx.2 (hall x hx hpx.1))
    rw [hf]
    cases ed <;> rfl

/-- Witness for C9: a duplicate CPF is rejected; a fresh CPF is
appended. -/
theorem handleSaveBeneficiary_spec_witness :
    (∃ b ∈ [mkBeneficiary "b1" "111" []],
        b.cpf = (mkBeneficiary "b2" "111" []).cpf ∧
        b.id ≠ (mkBeneficiary "b2" "111" []).id) ∧
    handleSaveBeneficiary [mkBeneficiary "b1" "111" []] none
        (mkBeneficiary "b2" "111" []) =
      ([mkBeneficiary "b1" "111" []], false) ∧
    (∀ b ∈ [mkBeneficiary "b1" "111" []],
        b.cpf = (mkBeneficiary "b3" "222" []).cpf →
        b.id = (mkBeneficiary "b3" "222" []).id) ∧
    handleSaveBeneficiary [mkBeneficiary "b1" "111" []] none
        (mkBeneficiary "b3" "222" []) =
      ([mkBeneficiary "b1" "111" [], mkBeneficiary "b3" "222" []], true) :=
  ⟨by decide, (handleSaveBeneficiary_spec _ _ _).1 (by decide),
   by decide, (handleSaveBeneficiary_spec _ _ _).2 (by decide)⟩

/-- Helper: a decimal digit is not JS whitespace. -/
theorem digit_not_space {c : Char} (h : c.isDigit = true) : isJsSpace c = false := by
  have h2 : 48 ≤ c.toNat ∧ c.toNat ≤ 57 := by
    simp [Char.isDigit, Char.le_def] at h
    exact ⟨h.1, h.2⟩
  unfold isJsSpace
  simp only [List.contains_cons, List.contains_nil, Bool.or_eq_false_iff,
    beq_eq_false_iff_ne, ne_eq, decide_eq_false_iff_not, Bool.and_eq_false_iff,
    and_true]
  omega

/-- Helper: `\s*` skips a whitespace run and stops at the first
non-space character. -/
theorem skipWs_append {ws : List Char} {r : Char} {rest : List Char}
    (hws : ∀ x ∈ ws, isJsSpace x = true) (hr : isJsSpace r = false) :
    skipWs (ws ++ r :: rest) = r :: rest := by
  induction ws with
  | nil => simp [skipWs, hr]
  | cons x xs ih =>
      have hx : isJsSpace x = true := hws x (by simp)
      rw [List.cons_append]
      rw [show skipWs (x :: (xs ++ r :: rest)) = skipWs (xs ++ r :: rest) by
        simp [skipWs, hx]]
      exact ih (fun y hy => hws y (by simp [hy]))

/-- Helper: the pattern matches at the start of any input shaped
`dd:dd`, whitespace, `-`, whitespace, `dd:dd`. -/
theorem tryMatchAt_pattern {a b c d e f g h : Char} {ws1 ws2 post : List Char}
    (ha : a.isDigit = true) (hb : b.isDigit = true)
    (hc : c.isDigit = true) (hd : d.isDigit = true)
    (he : e.isDigit = true) (hf : f.isDigit = true)
    (hg : g.isDigit = true) (hh : h.isDigit = true)
    (hw1 : ∀ x ∈ ws1, isJsSpace x = true) (hw2 : ∀ x ∈ ws2, isJsSpace x = true) :
    (tryMatchAt (a :: b :: ':' :: c :: d ::
      (ws1 ++ '-' :: (ws2 ++ e :: f :: ':' :: g :: h :: post)))).isSome = true := by
  have hs1 : skipWs (ws1 ++ '-' :: (ws2 ++ e :: f :: ':' :: g :: h :: post)) =
      '-' :: (ws2 ++ e :: f :: ':' :: g :: h :: post) :=
    skipWs_append hw1 (by decide)
  have hs2 : skipWs (ws2 ++ e :: f :: ':' :: g :: h :: post) =
      e :: f :: ':' :: g :: h :: post :=
    skipWs_append hw2 (digit_not_space he)
  simp [tryMatchAt, matchTwoDigits, expectChar, ha, hb, hc, hd, he, hf, hg, hh,
    hs1, hs2, Option.bind]

/-- Helper: an unanchored scan succeeds whenever the pattern matches
at some position. -/
theorem searchPattern_isSome_of_suffix {l : List Char}
    (h : (tryMatchAt l).isSome = true) (pre : List Char) :
    (searchPattern (pre ++ l)).isSome = true := by
  induction pre with
  | nil =>
      cases l with
      | nil => simp [tryMatchAt, matchTwoDigits] at h
      | cons x xs =>
          rw [List.nil_append]
          unfold searchPattern
          cases ht : tryMatchAt (x :: xs) with
          | some t => simp
          | none => rw [ht] at h; simp at h
  | cons x xs ih =>
      rw [List.cons_append]
      unfold searchPattern
      cases ht : tryMatchAt (x :: (xs ++ l)) with
      | some t => simp
      | none => exact ih

/-- C10: `parseTime` is unanchored and unbounded: it succeeds on every
string containing, anywhere inside it, two digits, colon, two digits,
dash (with optional surrounding whitespace), two digits, colon, two
digits; it performs no range check — "99:99 - 99:99" parses with
start = 99*60+99 — and a workshop with such a time string fully
participates in conflict detection. -/
theorem parseTime_unanchored_unbounded :
    (∀ (s : String) (pre post ws1 ws2 : List Char) (a b c d e f g h : Char),
      a.isDigit = true → b.isDigit = true → c.isDigit = true → d.isDigit = true →
      e.isDigit = true → f.isDigit = true → g.isDigit = true → h.isDigit = true →
      (∀ x ∈ ws1, isJsSpace x = true) → (∀ x ∈ ws2, isJsSpace x = true) →
      s.toList = pre ++ a :: b :: ':' :: c :: d ::
        (ws1 ++ '-' :: (ws2 ++ e :: f :: ':' :: g :: h :: post)) →
      (parseTime s).isSome = true) ∧
    parseTime "99:99 - 99:99" =
      some { start := 99 * 60 + 99, «end» := 99 * 60 + 99 } ∧
    findConflictingWorkshops
        [mkWorkshop "u" ["Segunda"] "segunda 08:00 - 09:00 manhã",
         mkWorkshop "n" ["Segunda"] "08:30 - 09:30"] =
      [(mkWorkshop "u" ["Segunda"] "segunda 08:00 - 09:00 manhã",
        mkWorkshop "n" ["Segunda"] "08:30 - 09:30")] := by
  refine ⟨?_, by decide, by decide⟩
  intro s pre post ws1 ws2 a b c d e f g h ha hb hc hd he hf hg hh hw1 hw2 hs
  unfold parseTime
  rw [hs]
  exact searchPattern_isSome_of_suffix
    (tryMatchAt_pattern ha hb hc hd he hf hg hh hw1 hw2) pre

/-- Witness for C10 at `"segunda 08:00 - 09:00 manhã"`. -/
theorem parseTime_unanchored_unbounded_witness :
    ('0' : Char).isDigit = true ∧
    (∀ x ∈ ([' '] : List Char), isJsSpace x = true) ∧
    (parseTime "segunda 08:00 - 09:00 manhã").isSome = true :=
  ⟨by decide, by decide,
   parseTime_unanchored_unbounded.1 "segunda 08:00 - 09:00 manhã"
     "segunda ".toList " manhã".toList [' '] [' '] '0' '8' '0' '0' '0' '9' '0' '0'
     (by decide) (by decide) (by decide) (by decide) (by decide) (by decide)
     (by decide) (by decide) (by decide) (by decide) (by decide)⟩
